import Mathlib

/-!
Verification development for the Learn-buddy text-processing core:
tokenizer, readability analyzer, simplification engine, validation,
and the highlight synchronizer, embedded shallowly from the JavaScript
sources (`utils/textProcessing.js`, `utils/textSimplification.js`,
`constants/index.js`, and the TextToSpeech component).

Strings are modelled as `List Char`; JavaScript numbers appearing in the
readability computation are modelled exactly (rationals) together with the
`NaN` / `Infinity` values that unguarded division can produce.  All
definitions are structurally recursive so that concrete runs of the embedded
code reduce inside the kernel.
-/

set_option maxHeartbeats 1000000
set_option maxRecDepth 100000

/-- Character class of the JS `\w` class: ASCII letters, digits, underscore. -/
def isWordCharJS (c : Char) : Bool :=
  (('a' ≤ c && c ≤ 'z') || ('A' ≤ c && c ≤ 'Z') || ('0' ≤ c && c ≤ '9') || c = '_')

/-- Character class of the tokenizer's first alternative `[\w']`
(`TEXT_PATTERNS.WORD` in `constants/index.js`). -/
def isTokWordChar (c : Char) : Bool :=
  isWordCharJS c || c = '\''

/-- Character class of the tokenizer's second alternative `[.!?;,—–-]`. -/
def isTokPunctChar (c : Char) : Bool :=
  c = '.' || c = '!' || c = '?' || c = ';' || c = ',' || c = '—' || c = '–' || c = '-'

/-- A character at which the tokenizer's regex `[\w']+|[.!?;,—–-]+` can start a match. -/
def isTokMatchChar (c : Char) : Bool :=
  isTokWordChar c || isTokPunctChar c

/-- JS whitespace as used by `trim`, `\s` and `/\s+/` (the common members). -/
def isJsWS (c : Char) : Bool :=
  c = ' ' || c = '\t' || c = '\n' || c = '\r' || c = '\x0b' || c = '\x0c'

/-- JS `String.prototype.trim`: drop leading and trailing whitespace. -/
def jsTrim (cs : List Char) : List Char :=
  ((cs.dropWhile isJsWS).reverse.dropWhile isJsWS).reverse

/-- JS `String.prototype.split` on a regex matching maximal runs of `p`-characters
(as in `text.split(/[.!?]+/)` or `text.split(/\s+/)`): the pieces between
separator runs, empty leading/trailing pieces included. -/
def splitRuns (p : Char → Bool) : List Char → List (List Char)
  | [] => [[]]
  | c :: cs =>
    if p c then
      match cs with
      | [] => [[], []]
      | d :: _ => if p d then splitRuns p cs else [] :: splitRuns p cs
    else
      match splitRuns p cs with
      | [] => [[c]]
      | piece :: rest => (c :: piece) :: rest

example : splitRuns (fun c => c = '.') "a..b.".data = ["a".data, "b".data, []] := by decide
example : splitRuns (fun c => c = '.') "".data = [[]] := by decide
example : splitRuns (fun c => c = '.') ".a".data = [[], "a".data] := by decide

/-- The class (word / punctuation / other) of a character for the tokenizer:
two adjacent characters belong to one regex match, or to one inter-match gap,
exactly when they have the same class. -/
def tokCharClass (c : Char) : Nat :=
  if isTokWordChar c then 0 else if isTokPunctChar c then 1 else 2

/-- Maximal runs of same-class characters (classes given by `cls`). The
tokenizer's regex scan visits exactly these runs in order: a word-class run or
punctuation-class run is one regex match, an other-class run is a gap. -/
def chunkBy (cls : Char → Nat) : List Char → List (List Char)
  | [] => []
  | c :: cs =>
    match chunkBy cls cs with
    | [] => [[c]]
    | [] :: rest => [c] :: rest
    | (d :: ds) :: rest =>
      if cls c = cls d then (c :: d :: ds) :: rest else [c] :: (d :: ds) :: rest

/-- Token type tags of `tokenizeText` in `utils/textProcessing.js`. -/
inductive TokenType where
  | word
  | punctuation
  | whitespace
deriving DecidableEq, Repr

/-- A token of `tokenizeText`: text, type and character offsets (the source
object's `end` field is called `stop` here, `end` being reserved in Lean). -/
structure Token where
  text : List Char
  type : TokenType
  start : Nat
  stop : Nat
deriving DecidableEq, Repr

/-- Emission loop of `tokenizeText` over the maximal-run decomposition: a
word/punctuation run becomes a token; a gap before a further match is emitted
as a whitespace token only when it trims to empty (`whitespace.trim() === ''`);
trailing unmatched text is pushed as a whitespace token unconditionally. -/
def tokensOfChunks : List (List Char) → Nat → List Token
  | [], _ => []
  | chunk :: rest, pos =>
    match chunk with
    | [] => tokensOfChunks rest pos
    | c :: _ =>
      if isTokMatchChar c then
        { text := chunk,
          type := if isTokWordChar c then TokenType.word else TokenType.punctuation,
          start := pos, stop := pos + chunk.length }
          :: tokensOfChunks rest (pos + chunk.length)
      else
        match rest with
        | [] => [{ text := chunk, type := TokenType.whitespace,
                   start := pos, stop := pos + chunk.length }]
        | _ :: _ =>
          (if chunk.all isJsWS then
            [{ text := chunk, type := TokenType.whitespace,
               start := pos, stop := pos + chunk.length }]
           else [])
            ++ tokensOfChunks rest (pos + chunk.length)

/-- `tokenizeText(text)` from `utils/textProcessing.js`. -/
def tokenizeText (cs : List Char) : List Token :=
  tokensOfChunks (chunkBy tokCharClass cs) 0

example : tokenizeText "a b".data =
    [⟨"a".data, TokenType.word, 0, 1⟩,
     ⟨" ".data, TokenType.whitespace, 1, 2⟩,
     ⟨"b".data, TokenType.word, 2, 3⟩] := by decide

example : tokenizeText "a@b".data =
    [⟨"a".data, TokenType.word, 0, 1⟩,
     ⟨"b".data, TokenType.word, 2, 3⟩] := by decide

example : tokenizeText "ab-- c".data =
    [⟨"ab".data, TokenType.word, 0, 2⟩,
     ⟨"--".data, TokenType.punctuation, 2, 4⟩,
     ⟨" ".data, TokenType.whitespace, 4, 5⟩,
     ⟨"c".data, TokenType.word, 5, 6⟩] := by decide

example : tokenizeText "a@".data =
    [⟨"a".data, TokenType.word, 0, 1⟩,
     ⟨"@".data, TokenType.whitespace, 1, 2⟩] := by decide

/-- Sentence-terminator class of `TEXT_PATTERNS.SENTENCE = /[.!?]+(?:\s+|$)/g`. -/
def isSentTerm (c : Char) : Bool :=
  c = '.' || c = '!' || c = '?'

/-- Matches of the sentence pattern `[.!?]+(?:\s+|$)` as (start, end) offset
pairs: a maximal terminator run matches exactly when it is followed by
whitespace or the end of input, and the match extends over the following
whitespace run.  `fuel` bounds the scan (each step consumes at least one
character, so `length + 1` is always enough). -/
def sentMatches : Nat → List Char → Nat → List (Nat × Nat)
  | 0, _, _ => []
  | _ + 1, [], _ => []
  | fuel + 1, c :: cs, pos =>
    if isSentTerm c then
      let run := c :: cs.takeWhile isSentTerm
      let afterRun := cs.dropWhile isSentTerm
      match afterRun with
      | [] => [(pos, pos + run.length)]
      | d :: _ =>
        if isJsWS d then
          let ws := afterRun.takeWhile isJsWS
          let rest := afterRun.dropWhile isJsWS
          (pos, pos + run.length + ws.length)
            :: sentMatches fuel rest (pos + run.length + ws.length)
        else
          sentMatches fuel afterRun (pos + run.length)
    else
      sentMatches fuel cs (pos + 1)

/-- A sentence span of `tokenizeSentences`: trimmed text with offsets over the
original string (the source object's `end` field is called `stop` here). -/
structure Sentence where
  text : List Char
  start : Nat
  stop : Nat
deriving DecidableEq, Repr

/-- Slice `text.slice(a, b)` on a character list. -/
def jsSlice (cs : List Char) (a b : Nat) : List Char :=
  (cs.drop a).take (b - a)

/-- Emission loop of `tokenizeSentences`: for each pattern match, the text from
the previous match end up to this match end is trimmed and emitted when
non-empty; trailing text after the last match is emitted likewise. -/
def sentencesOfMatches (cs : List Char) : List (Nat × Nat) → Nat → List Sentence
  | [], lastIndex =>
    if lastIndex < cs.length then
      let remaining := jsTrim (jsSlice cs lastIndex cs.length)
      if remaining.isEmpty then [] else [{ text := remaining, start := lastIndex, stop := cs.length }]
    else []
  | (_, me) :: ms, lastIndex =>
    let sentence := jsTrim (jsSlice cs lastIndex me)
    if sentence.isEmpty then sentencesOfMatches cs ms me
    else { text := sentence, start := lastIndex, stop := me } :: sentencesOfMatches cs ms me

/-- `tokenizeSentences(text)` from `utils/textProcessing.js`. -/
def tokenizeSentences (cs : List Char) : List Sentence :=
  sentencesOfMatches cs (sentMatches (cs.length + 1) cs 0) 0

example : tokenizeSentences "Hi there. Bye!".data =
    [⟨"Hi there.".data, 0, 10⟩, ⟨"Bye!".data, 10, 14⟩] := by decide
example : tokenizeSentences "a.b".data = [⟨"a.b".data, 0, 3⟩] := by decide
example : tokenizeSentences "".data = [] := by decide

/-- `findSentenceIndex(sentences, position)` from `utils/textProcessing.js`:
first index whose span contains the position, else -1. -/
def findSentenceIndex (sentences : List Sentence) (position : Nat) : Int :=
  match sentences.findIdx? (fun s => decide (position ≥ s.start) && decide (position < s.stop)) with
  | none => -1
  | some i => (i : Int)

example : findSentenceIndex (tokenizeSentences "Hi there. Bye!".data) 11 = 1 := by decide

/-- `calculateWordTiming(speechRate, wordsCount)` from `utils/textProcessing.js`:
`(60 * 1000) / (150 * speechRate)` milliseconds per word.  The `wordsCount`
parameter is accepted but never read, as in the source. -/
def calculateWordTiming (speechRate : Rat) (wordsCount : Nat) : Rat :=
  (60 * 1000) / (150 * speechRate)

/-- Result object of `validateText`. -/
structure ValidationResult where
  isValid : Bool
  error : Option String
deriving DecidableEq, Repr

/-- `validateText(text)` from `utils/textProcessing.js`. -/
def validateText (cs : List Char) : ValidationResult :=
  if (jsTrim cs).isEmpty then { isValid := false, error := some "Text cannot be empty" }
  else if cs.length > 10000 then { isValid := false, error := some "Text too long (max 10,000 characters)" }
  else { isValid := true, error := none }

example : validateText "  ".data = ⟨false, some "Text cannot be empty"⟩ := by decide
example : validateText "hello".data = ⟨true, none⟩ := by decide

/-- `VOCABULARY_SIMPLIFICATIONS` from `utils/textSimplification.js`, in object
literal order (complex word, simple replacement). -/
def VOCABULARY_SIMPLIFICATIONS : List (String × String) :=
  [("utilize", "use"), ("commence", "start"), ("terminate", "end"),
   ("demonstrate", "show"), ("facilitate", "help"), ("approximately", "about"),
   ("subsequently", "then"), ("furthermore", "also"), ("nevertheless", "however"),
   ("consequently", "so"), ("substantial", "large"), ("significant", "important"),
   ("essential", "needed"), ("acquire", "get"), ("establish", "create"),
   ("implement", "do"), ("maintain", "keep"), ("participate", "join"),
   ("investigate", "study"), ("comprehend", "understand"), ("anticipate", "expect"),
   ("encounter", "meet"), ("contribute", "help"), ("eliminate", "remove"),
   ("accumulate", "gather"), ("sufficient", "enough"), ("numerous", "many"),
   ("enormous", "huge"), ("magnificent", "great"), ("extraordinary", "amazing"),
   ("phenomenon", "event"), ("atmosphere", "air"), ("temperature", "heat"),
   ("precipitation", "rain"), ("vegetation", "plants"), ("inhabitants", "people"),
   ("transportation", "travel"), ("communication", "talking"), ("information", "facts"),
   ("education", "learning"), ("opportunity", "chance"), ("responsibility", "duty"),
   ("difficulty", "problem"), ("advantage", "benefit"), ("disadvantage", "problem"),
   ("requirement", "need"), ("explanation", "reason"), ("description", "details"),
   ("comparison", "contrast"), ("recommendation", "advice"), ("consideration", "thought"),
   ("determination", "decision"), ("appreciation", "thanks"), ("congratulations", "well done"),
   ("unfortunately", "sadly"), ("particularly", "especially"), ("immediately", "right away"),
   ("completely", "fully"), ("absolutely", "totally"), ("definitely", "surely"),
   ("probably", "maybe"), ("generally", "usually"), ("specifically", "exactly"),
   ("eventually", "finally"), ("currently", "now"), ("recently", "lately"),
   ("previously", "before"), ("originally", "first"), ("initially", "at start")]

/-- `PHRASE_SIMPLIFICATIONS` from `utils/textSimplification.js`, in object
literal order. -/
def PHRASE_SIMPLIFICATIONS : List (String × String) :=
  [("in order to", "to"), ("due to the fact that", "because"),
   ("in spite of", "despite"), ("with regard to", "about"),
   ("in relation to", "about"), ("in addition to", "plus"),
   ("as a result of", "because of"), ("for the purpose of", "to"),
   ("in the event that", "if"), ("at the present time", "now"),
   ("during the time that", "while"), ("in the near future", "soon"),
   ("at this point in time", "now"), ("in the process of", "while"),
   ("make a decision", "decide"), ("come to a conclusion", "conclude"),
   ("take into consideration", "consider"), ("give consideration to", "consider"),
   ("make an attempt", "try"), ("in the majority of cases", "usually"),
   ("a large number of", "many"), ("a great deal of", "much"),
   ("on a regular basis", "regularly"), ("in a timely manner", "on time"),
   ("of great importance", "important"), ("at the same time", "meanwhile"),
   ("in the same way", "similarly"), ("on the other hand", "however"),
   ("as a matter of fact", "actually"), ("it is important to note", "note that"),
   ("it should be noted", "note"), ("it is worth mentioning", "also")]

/-- The word table with keys and values as character lists. -/
def vocabListL : List (List Char × List Char) :=
  VOCABULARY_SIMPLIFICATIONS.map (fun p => (p.1.data, p.2.data))

/-- The phrase table with keys and values as character lists. -/
def phraseListL : List (List Char × List Char) :=
  PHRASE_SIMPLIFICATIONS.map (fun p => (p.1.data, p.2.data))

/-- JS `toLowerCase` on ASCII text. -/
def lowerStr (cs : List Char) : List Char :=
  cs.map Char.toLower

/-- Key membership in the word table (`!VOCABULARY_SIMPLIFICATIONS[w]`,
modelling the object as a plain map of its own keys). -/
def vocabHasKey (w : List Char) : Bool :=
  vocabListL.any (fun p => p.1 == w)

/-- Case-insensitive equality of characters, as produced by the `i` regex flag
on ASCII text. -/
def charEqCI (a b : Char) : Bool :=
  a.toLower == b.toLower

/-- Does `key` occur case-insensitively at the head of `cs`? -/
def headMatchesCI : List Char → List Char → Bool
  | [], _ => true
  | _ :: _, [] => false
  | k :: ks, c :: cs => charEqCI k c && headMatchesCI ks cs

/-- One global case-insensitive substring replacement pass, as performed by
`text.replace(new RegExp(escapedPhrase, 'gi'), rep)`: scan left to right,
replace every non-overlapping occurrence, never rescanning replacement text.
`fuel` bounds the scan (each step consumes at least one character). -/
def replaceAllCIGo (key rep : List Char) : Nat → List Char → List Char
  | _, [] => []
  | 0, cs => cs
  | fuel + 1, c :: cs =>
    if headMatchesCI key (c :: cs) then
      rep ++ replaceAllCIGo key rep fuel (cs.drop (key.length - 1))
    else
      c :: replaceAllCIGo key rep fuel cs

/-- `text.replace(/phrase/gi, rep)` for a non-empty literal phrase. -/
def replaceAllCI (key rep cs : List Char) : List Char :=
  if key.isEmpty then cs else replaceAllCIGo key rep cs.length cs

/-- One global case-insensitive whole-word replacement pass, as performed by
`text.replace(new RegExp('\\b' + word + '\\b', 'gi'), rep)`.  `prevIsWord`
records whether the previously consumed character of the original string was a
`\w` character (for the leading `\b`); the trailing `\b` requires the character
after the occurrence, if any, not to be a `\w` character. -/
def replaceWordCIGo (key rep : List Char) : Nat → Bool → List Char → List Char
  | _, _, [] => []
  | 0, _, cs => cs
  | fuel + 1, prevIsWord, c :: cs =>
    if !prevIsWord && headMatchesCI key (c :: cs) &&
       (match (c :: cs).drop key.length with
        | [] => true
        | d :: _ => !isWordCharJS d) then
      rep ++ replaceWordCIGo key rep fuel true (cs.drop (key.length - 1))
    else
      c :: replaceWordCIGo key rep fuel (isWordCharJS c) cs

/-- `text.replace(/\bword\b/gi, rep)` for a non-empty alphabetic word. -/
def replaceWordCI (key rep cs : List Char) : List Char :=
  if key.isEmpty then cs else replaceWordCIGo key rep cs.length false cs

/-- Stable insertion of a phrase entry into a list sorted by descending key
length (`sort((a, b) => b.length - a.length)` on already sorted tail). -/
def insertByLenDesc (x : List Char × List Char) :
    List (List Char × List Char) → List (List Char × List Char)
  | [] => [x]
  | y :: ys => if y.1.length ≥ x.1.length then y :: insertByLenDesc x ys else x :: y :: ys

/-- The phrase table sorted by descending key length, longest first, ties in
original order (JS `Array.prototype.sort` is stable). -/
def sortedPhrases : List (List Char × List Char) :=
  phraseListL.foldr insertByLenDesc []

/-- `simplifyVocabulary(text)` from `utils/textSimplification.js`: all phrase
replacements longest-first, then all word replacements in table order. -/
def simplifyVocabulary (cs : List Char) : List Char :=
  let afterPhrases := sortedPhrases.foldl (fun acc p => replaceAllCI p.1 p.2 acc) cs
  vocabListL.foldl (fun acc p => replaceWordCI p.1 p.2 acc) afterPhrases

/-- The word-replacement pass of `simplifyVocabulary` alone (the
`Object.keys(VOCABULARY_SIMPLIFICATIONS).forEach` loop). -/
def applyWordTable (cs : List Char) : List Char :=
  vocabListL.foldl (fun acc p => replaceWordCI p.1 p.2 acc) cs

example : replaceWordCI "utilize".data "use".data "Utilize it".data = "use it".data := by decide
example : replaceWordCI "utilize".data "use".data "reutilize".data = "reutilize".data := by decide
example : replaceAllCI "in order to".data "to".data "win order tomb".data = "wtomb".data := by decide

/-- JavaScript number values reachable in `calculateReadabilityScore`: exact
rationals plus the `Infinity`, `-Infinity` and `NaN` produced by unguarded
division.  (Binary floating-point rounding of finite values is outside this
model; the arithmetic is exact.) -/
inductive JsNum where
  | fin : Rat → JsNum
  | posInf : JsNum
  | negInf : JsNum
  | nan : JsNum
deriving DecidableEq, Repr

/-- JS division of two non-negative integers (`a / b`): `0 / 0` is `NaN`,
`a / 0` is `Infinity` for positive `a`. -/
def jsDivNat (a b : Nat) : JsNum :=
  if b = 0 then (if a = 0 then JsNum.nan else JsNum.posInf) else JsNum.fin ((a : Rat) / (b : Rat))

/-- JS multiplication `x * c` by a finite non-zero constant. -/
def jsMulConst (c : Rat) : JsNum → JsNum
  | JsNum.fin r => JsNum.fin (r * c)
  | JsNum.posInf => if c > 0 then JsNum.posInf else if c = 0 then JsNum.nan else JsNum.negInf
  | JsNum.negInf => if c > 0 then JsNum.negInf else if c = 0 then JsNum.nan else JsNum.posInf
  | JsNum.nan => JsNum.nan

/-- JS addition on the number model. -/
def jsAdd : JsNum → JsNum → JsNum
  | JsNum.nan, _ => JsNum.nan
  | _, JsNum.nan => JsNum.nan
  | JsNum.posInf, JsNum.negInf => JsNum.nan
  | JsNum.negInf, JsNum.posInf => JsNum.nan
  | JsNum.posInf, _ => JsNum.posInf
  | _, JsNum.posInf => JsNum.posInf
  | JsNum.negInf, _ => JsNum.negInf
  | _, JsNum.negInf => JsNum.negInf
  | JsNum.fin a, JsNum.fin b => JsNum.fin (a + b)

/-- JS comparison `x < c` against a finite constant: false for `NaN` and
`Infinity`, true for `-Infinity`. -/
def jsLtConst (x : JsNum) (c : Rat) : Bool :=
  match x with
  | JsNum.fin r => decide (r < c)
  | JsNum.posInf => false
  | JsNum.negInf => true
  | JsNum.nan => false

/-- `Math.round` on a finite value: round half toward positive infinity. -/
def jsRound (q : Rat) : Int :=
  ⌊q + 1 / 2⌋

/-- `Math.round(x * 10) / 10` lifted to the number model. -/
def jsRound10 : JsNum → JsNum
  | JsNum.fin r => JsNum.fin ((jsRound (r * 10) : Rat) / 10)
  | JsNum.posInf => JsNum.posInf
  | JsNum.negInf => JsNum.negInf
  | JsNum.nan => JsNum.nan

/-- `Math.round(x * 1000) / 10` lifted to the number model. -/
def jsRoundPct : JsNum → JsNum
  | JsNum.fin r => JsNum.fin ((jsRound (r * 1000) : Rat) / 10)
  | JsNum.posInf => JsNum.posInf
  | JsNum.negInf => JsNum.negInf
  | JsNum.nan => JsNum.nan

/-- The sentence pieces of `calculateReadabilityScore`:
`text.split(/[.!?]+/).filter(s => s.trim().length > 0)`. -/
def scoreSentences (cs : List Char) : List (List Char) :=
  (splitRuns isSentTerm cs).filter (fun s => !(jsTrim s).isEmpty)

/-- The word pieces of `calculateReadabilityScore`:
`text.split(/\s+/).filter(w => w.length > 0)`. -/
def scoreWords (cs : List Char) : List (List Char) :=
  (splitRuns isJsWS cs).filter (fun w => !w.isEmpty)

/-- A complex word: `word.length > 6 && !VOCABULARY_SIMPLIFICATIONS[word.toLowerCase()]`. -/
def isComplexWord (w : List Char) : Bool :=
  decide (w.length > 6) && !vocabHasKey (lowerStr w)

/-- Result object of `calculateReadabilityScore`.  The `suggestions` field of
the source (advisory messages from `generateSimplificationSuggestions`) is not
modelled; no claim concerns it. -/
structure ReadabilityResult where
  score : JsNum
  level : String
  avgSentenceLength : JsNum
  complexWordRatio : JsNum
  totalWords : Nat
  totalSentences : Nat
deriving DecidableEq, Repr

/-- `calculateReadabilityScore(text)` from `utils/textSimplification.js`:
`score = avgSentenceLength * 0.39 + complexWordRatio * 100`, with the returned
`score` and `avgSentenceLength` rounded to one decimal, `complexWordRatio`
returned as a percentage rounded to one decimal, and the level thresholds
applied to the unrounded score. -/
def calculateReadabilityScore (cs : List Char) : ReadabilityResult :=
  let sentences := scoreSentences cs
  let words := scoreWords cs
  let avgSentenceLength := jsDivNat words.length sentences.length
  let complexWords := (words.filter isComplexWord).length
  let cwr := jsDivNat complexWords words.length
  let score := jsAdd (jsMulConst (39 / 100) avgSentenceLength) (jsMulConst 100 cwr)
  { score := jsRound10 score,
    level := if jsLtConst score 30 then "Easy"
             else if jsLtConst score 50 then "Medium"
             else if jsLtConst score 70 then "Hard"
             else "Very Hard",
    avgSentenceLength := jsRound10 avgSentenceLength,
    complexWordRatio := jsRoundPct cwr,
    totalWords := words.length,
    totalSentences := sentences.length }

example : (calculateReadabilityScore "".data).score = JsNum.nan := by decide
example : (calculateReadabilityScore "".data).level = "Very Hard" := by decide

/-- Class function for `text.split(/([.!?]+)/)`: terminator run vs other. -/
def sentSepClass (c : Char) : Nat :=
  if isSentTerm c then 0 else 1

/-- Is a maximal-run chunk a terminator run? -/
def sepChunk : List Char → Bool
  | [] => false
  | c :: _ => isSentTerm c

/-- JS `text.split(/([.!?]+)/)`: splitting with a capturing group keeps the
separator runs in the result, with empty pieces where the string starts or
ends with a separator run. -/
def splitKeepSent (cs : List Char) : List (List Char) :=
  let chunks := chunkBy sentSepClass cs
  match chunks with
  | [] => [[]]
  | first :: _ =>
    let withFront := if sepChunk first then [] :: chunks else chunks
    match withFront.getLast? with
    | none => withFront
    | some l => if sepChunk l then withFront ++ [[]] else withFront

example : splitKeepSent "a. b".data = ["a".data, ".".data, " b".data] := by decide
example : splitKeepSent "a.".data = ["a".data, ".".data, []] := by decide
example : splitKeepSent ".a".data = [[], ".".data, "a".data] := by decide
example : splitKeepSent "".data = [[]] := by decide

/-- The `for (i = 0; i < n; i += 2)` pairing of `simplifyStructure`:
`(sentences[i], sentences[i+1] || '.')`. -/
def sentencePairs : List (List Char) → List (List Char × List Char)
  | [] => []
  | [s] => [(s, ['.'])]
  | s :: p :: rest => (s, p) :: sentencePairs rest

/-- The conjunction list of `simplifyStructure`. -/
def CONJUNCTIONS : List String :=
  ["and", "but", "or", "so", "yet", "for", "nor", "because", "although",
   "while", "since", "unless", "until", "when", "where", "after", "before"]

/-- The conjunction list as character lists. -/
def conjunctionsL : List (List Char) :=
  CONJUNCTIONS.map String.data

/-- `splitPoints` of `simplifyStructure`: word indices holding a conjunction
(case-insensitively) at index greater than 5, in ascending order. -/
def splitPointsOf (words : List (List Char)) : List Nat :=
  (words.enum.filter
    (fun p => conjunctionsL.contains (lowerStr p.2) && decide (p.1 > 5))).map Prod.fst

/-- `words.slice(a, b)` on a list of words. -/
def sliceList (ws : List (List Char)) (a b : Nat) : List (List Char) :=
  (ws.drop a).take (b - a)

/-- `join(' ')` on a list of words. -/
def joinSpace : List (List Char) → List Char
  | [] => []
  | [w] => w
  | w :: ws => w ++ ' ' :: joinSpace ws

/-- The `splitPoints.forEach` fold of `simplifyStructure`: accumulate pushed
segments and the running `lastSplit`.  A segment is pushed when the split
point is more than 8 words past the previous split; `lastSplit` then advances
to the split point. -/
def conjunctionStep (words : List (List Char))
    (acc : List (List Char) × Nat) (sp : Nat) : List (List Char) × Nat :=
  if sp - acc.2 > 8 then
    let part := jsTrim (joinSpace (sliceList words acc.2 sp))
    (acc.1 ++ (if part.isEmpty then [] else [part ++ ['.']]), sp)
  else acc

/-- The `splitPoints.forEach` fold applied to all split points. -/
def conjunctionParts (words : List (List Char)) : List (List Char) × Nat :=
  (splitPointsOf words).foldl (conjunctionStep words) ([], 0)

/-- Segment list produced for a sentence of more than 25 words: conjunction
splitting when split points exist (remaining words carry the original
punctuation), otherwise a midpoint split. -/
def longSentenceSegments (words : List (List Char)) (punct : List Char) :
    List (List Char) :=
  if (splitPointsOf words).isEmpty then
    let mid := words.length / 2
    [jsTrim (joinSpace (words.take mid)) ++ ['.'],
     jsTrim (joinSpace (words.drop mid)) ++ punct]
  else
    let st := conjunctionParts words
    let remaining := jsTrim (joinSpace (words.drop st.2))
    st.1 ++ (if remaining.isEmpty then [] else [remaining ++ punct])

/-- `sentence.trim().split(/\s+/)` — the word list of one sentence. -/
def sentenceWords (sentence : List Char) : List (List Char) :=
  splitRuns isJsWS (jsTrim sentence)

/-- Segments produced for one sentence/punctuation pair of `simplifyStructure`. -/
def sentenceSegments (sentence punct : List Char) : List (List Char) :=
  let words := sentenceWords sentence
  if words.length > 25 then longSentenceSegments words punct
  else [jsTrim sentence ++ punct]

/-- The `simplifiedSentences` array built by `simplifyStructure(text)`. -/
def simplifyStructureSegments (cs : List Char) : List (List Char) :=
  let pieces := (splitKeepSent cs).filter (fun s => !(jsTrim s).isEmpty)
  (sentencePairs pieces).foldl
    (fun acc pr =>
      if pr.1.isEmpty || (jsTrim pr.1).isEmpty then acc
      else acc ++ sentenceSegments pr.1 pr.2)
    []

/-- `simplifyStructure(text)` from `utils/textSimplification.js`:
the segment list joined with single spaces. -/
def simplifyStructure (cs : List Char) : List Char :=
  joinSpace (simplifyStructureSegments cs)

example : simplifyStructure "Short one. And two!".data = "Short one. And two!".data := by decide

/-- The word tokens of a text: `tokenizeText(text).filter(t => t.type === 'word')`. -/
def wordTokens (cs : List Char) : List Token :=
  (tokenizeText cs).filter (fun t => decide (t.type = TokenType.word))

/-- State read and written by the browser-TTS boundary handler
(`utterance.onboundary` in the TextToSpeech component): the two highlight
indices, the `boundaryWordIndex` counter and the `hasStartedFallback` flag. -/
structure BoundaryState where
  currentWordIndex : Int
  currentSentenceIndex : Int
  boundaryWordIndex : Nat
  hasStartedFallback : Bool
deriving DecidableEq, Repr

/-- The `utterance.onboundary` handler: on a `'word'` event with
`boundaryWordIndex < words.length`, highlight word `boundaryWordIndex`,
recompute the sentence index from that word's start offset, advance the
counter and clear the fallback flag; otherwise do nothing. -/
def onboundary (words : List Token) (sentences : List Sentence)
    (s : BoundaryState) (evName : String) : BoundaryState :=
  if evName = "word" ∧ s.boundaryWordIndex < words.length then
    let csi :=
      match words[s.boundaryWordIndex]? with
      | none => s.currentSentenceIndex
      | some w =>
        let si := findSentenceIndex sentences w.start
        if si ≠ -1 then si else s.currentSentenceIndex
    { currentWordIndex := (s.boundaryWordIndex : Int),
      currentSentenceIndex := csi,
      boundaryWordIndex := s.boundaryWordIndex + 1,
      hasStartedFallback := false }
  else s

/-- The value of `currentWordIndex` observed after each successive boundary
event, in arrival order. -/
def boundaryTrace (words : List Token) (sentences : List Sentence) :
    BoundaryState → List String → List Int
  | _, [] => []
  | s, e :: es =>
    let s' := onboundary words sentences s e
    s'.currentWordIndex :: boundaryTrace words sentences s' es

/-- Session state at `utterance.onstart`: highlight at word 0, sentence 0,
no boundary event consumed yet, fallback not started. -/
def initialBoundaryState : BoundaryState :=
  { currentWordIndex := 0, currentSentenceIndex := 0,
    boundaryWordIndex := 0, hasStartedFallback := false }

/-- The timer callbacks a playback session can schedule, each carrying the
environment data its body reads when it fires: the fallback and backend
polling ticks read a wall-clock/playback-derived expected word index; the
resume tick reads nothing; `resetDelay` is the 150 ms delayed highlight reset
scheduled by `resetPlaybackState`. -/
inductive TimerKind where
  | fallbackTick (expectedWordIndex : Nat)
  | backendTick (expectedWordIndex : Nat)
  | resumeTick
  | resetDelay
deriving DecidableEq, Repr

/-- Session state touched by the timer callbacks of the TextToSpeech
component: highlight indices, the closure variables of the fallback loop, and
the liveness facts the tick guards read (`browserTTS.isSpeaking()`,
`browserTTS.isPaused()`, and whether `audioRef` is present, unpaused and not
ended). -/
structure PlaybackState where
  currentWordIndex : Int
  currentSentenceIndex : Int
  fallbackWordIndex : Nat
  hasStartedFallback : Bool
  boundaryWordIndex : Nat
  isSpeaking : Bool
  enginePaused : Bool
  audioActive : Bool
deriving DecidableEq, Repr

/-- Sentence-index recomputation shared by the tick bodies: look up the word
token, keep the old index when `findSentenceIndex` returns -1. -/
def tickSentenceIndex (words : List Token) (sentences : List Sentence)
    (idx : Nat) (old : Int) : Int :=
  match words[idx]? with
  | none => old
  | some w =>
    let si := findSentenceIndex sentences w.start
    if si ≠ -1 then si else old

/-- One timer callback firing, as written in the component:
`fallbackHighlighting` sets `hasStartedFallback` when no boundary event has
arrived, then mutates the highlight only while the engine is speaking and not
paused; `smoothHighlighting` (backend mode) returns immediately unless the
audio element is live; `resumeHighlighting` only reschedules itself; the
`resetDelay` body sets both highlight indices to -1. -/
def fireTimer (words : List Token) (sentences : List Sentence)
    (s : PlaybackState) : TimerKind → PlaybackState
  | TimerKind.fallbackTick expected =>
    let s1 := if !s.hasStartedFallback && decide (s.boundaryWordIndex = 0) then
                { s with hasStartedFallback := true } else s
    if s1.isSpeaking && !s1.enginePaused then
      if s1.hasStartedFallback && decide (expected < words.length) &&
         decide (expected ≠ s1.fallbackWordIndex) then
        { s1 with fallbackWordIndex := expected,
                  currentWordIndex := (expected : Int),
                  currentSentenceIndex :=
                    tickSentenceIndex words sentences expected s1.currentSentenceIndex }
      else s1
    else s1
  | TimerKind.backendTick expected =>
    if !s.audioActive then s
    else if decide (expected < words.length) &&
            decide ((expected : Int) ≠ s.currentWordIndex) then
      { s with currentWordIndex := (expected : Int),
               currentSentenceIndex :=
                 tickSentenceIndex words sentences expected s.currentSentenceIndex }
    else s
  | TimerKind.resumeTick => s
  | TimerKind.resetDelay =>
    { s with currentWordIndex := -1, currentSentenceIndex := -1 }

/-- `handleStop`: `cleanup()` cancels the utterance (`browserTTS.cancel()`, so
the engine is no longer speaking), pauses and detaches the audio element, and
clears the stored pending timeout; `resetPlaybackState()` then schedules the
150 ms delayed highlight reset (the `resetDelay` timer) and clears the stored
timeout again.  Cancelled timers simply never fire; timers whose handles were
not stored (the initial fallback/resume delays) may still fire afterwards. -/
def handleStop (s : PlaybackState) : PlaybackState :=
  { s with isSpeaking := false, audioActive := false }

/-! ## Claim C10: word timing ignores the word count -/

/-- C10: for every positive speech-rate multiplier `r` and all word counts,
`calculateWordTiming r n` equals `60000 / (150 * r)` milliseconds per word and
does not depend on the word-count argument. -/
theorem calculateWordTiming_ignores_wordsCount (r : Rat) (hr : 0 < r) (n m : Nat) :
    calculateWordTiming r n = 60000 / (150 * r) ∧
    calculateWordTiming r n = calculateWordTiming r m := by
  refine ⟨?_, rfl⟩
  unfold calculateWordTiming
  norm_num

/-- C10 witness: the timing theorem at rate 1 with word counts 5 and 7. -/
theorem calculateWordTiming_ignores_wordsCount_witness :
    (0 : Rat) < 1 ∧
    (calculateWordTiming 1 5 = 60000 / (150 * 1) ∧
     calculateWordTiming 1 5 = calculateWordTiming 1 7) :=
  ⟨by norm_num, calculateWordTiming_ignores_wordsCount 1 (by norm_num) 5 7⟩

/-! ## Claim C3: readability of empty input -/

/-- C3: on the empty string (zero words, zero sentences)
`calculateReadabilityScore` performs `0 / 0` without any guard: the returned
score, average sentence length and complex-word ratio are `NaN` and the level
is "Very Hard" (every `NaN < threshold` comparison is false), not score 0 and
level "Easy" as specified. -/
theorem calculateReadabilityScore_empty_nan :
    calculateReadabilityScore "".data =
      { score := JsNum.nan, level := "Very Hard", avgSentenceLength := JsNum.nan,
        complexWordRatio := JsNum.nan, totalWords := 0, totalSentences := 0 } := by
  decide

/-! ## Claim C9: vocabulary simplification scenario -/

/-- Substring containment (`String.prototype.includes`). -/
def containsSub (needle : List Char) : List Char → Bool
  | [] => needle.isEmpty
  | c :: t => needle.isPrefixOf (c :: t) || containsSub needle t

/-- C9: on "utilize this in order to facilitate learning." the vocabulary
pass yields "use this to help learning.": it contains "use", "to" and "help"
and contains neither "utilize" nor "facilitate" (the phrase "in order to" is
replaced before the word table is applied). -/
theorem simplifyVocabulary_scenario1 :
    simplifyVocabulary "utilize this in order to facilitate learning.".data =
      "use this to help learning.".data ∧
    containsSub "use".data (simplifyVocabulary "utilize this in order to facilitate learning.".data) = true ∧
    containsSub "to".data (simplifyVocabulary "utilize this in order to facilitate learning.".data) = true ∧
    containsSub "help".data (simplifyVocabulary "utilize this in order to facilitate learning.".data) = true ∧
    containsSub "utilize".data (simplifyVocabulary "utilize this in order to facilitate learning.".data) = false ∧
    containsSub "facilitate".data (simplifyVocabulary "utilize this in order to facilitate learning.".data) = false := by
  decide

/-! ## Claim C6: vocabulary simplification is not idempotent -/

/-- C6 counterexample: on "make a determination" one pass of
`simplifyVocabulary` rewrites the word "determination" to "decision",
producing "make a decision" — which the phrase table then rewrites to
"decide" on a second pass, so applying the function twice differs from
applying it once. -/
theorem simplifyVocabulary_not_idempotent :
    simplifyVocabulary "make a determination".data = "make a decision".data ∧
    simplifyVocabulary (simplifyVocabulary "make a determination".data) = "decide".data ∧
    simplifyVocabulary (simplifyVocabulary "make a determination".data) ≠
      simplifyVocabulary "make a determination".data := by
  decide

/-- C6 amended: the word-substitution pass alone never re-substitutes its own
output — every replacement value of the word table is a fixed point of the
whole word pass; idempotence of full `simplifyVocabulary` fails only because a
word replacement can create a new phrase-table match. -/
theorem applyWordTable_fixes_replacements :
    ∀ p ∈ vocabListL, applyWordTable p.2 = p.2 := by
  decide

/-- C6 witness: the word pass leaves the replacement "use" unchanged. -/
theorem applyWordTable_fixes_replacements_witness :
    applyWordTable "use".data = "use".data :=
  applyWordTable_fixes_replacements ("utilize".data, "use".data) (by decide)

/-! ## Claim C7: validation -/

/-- Trimming a run of spaces yields the empty string. -/
theorem jsTrim_replicate_space (n : Nat) : jsTrim (List.replicate n ' ') = [] := by
  have h : List.dropWhile isJsWS (List.replicate n ' ') = [] := by
    induction n with
    | zero => rfl
    | succ k ih => simpa [List.replicate_succ, List.dropWhile_cons, isJsWS] using ih
  simp [jsTrim, h]

/-- C7 counterexample: a whitespace-only text of 10,001 characters exceeds
10,000 characters, yet `validateText` reports "Text cannot be empty" (the
emptiness check runs first), not the too-long error the claim requires for
every over-long text. -/
theorem validateText_long_whitespace_counterexample :
    (List.replicate 10001 ' ').length > 10000 ∧
    validateText (List.replicate 10001 ' ') =
      { isValid := false, error := some "Text cannot be empty" } ∧
    validateText (List.replicate 10001 ' ') ≠
      { isValid := false, error := some "Text too long (max 10,000 characters)" } := by
  refine ⟨by rw [List.length_replicate]; norm_num, ?_, ?_⟩ <;>
  · unfold validateText
    rw [jsTrim_replicate_space]
    decide

/-- C7 amended: `validateText` returns the emptiness error exactly for
whitespace-only (including empty) texts; for texts that are not
whitespace-only it returns the too-long error exactly when the length exceeds
10,000, and is valid with a null error otherwise (so a non-whitespace text of
10,001 characters is rejected as too long and one of 10,000 characters is
valid). -/
theorem validateText_spec (cs : List Char) :
    (validateText cs = { isValid := false, error := some "Text cannot be empty" } ↔
      jsTrim cs = []) ∧
    (jsTrim cs ≠ [] →
      (validateText cs = { isValid := false, error := some "Text too long (max 10,000 characters)" } ↔
        10000 < cs.length)) ∧
    (jsTrim cs ≠ [] → cs.length ≤ 10000 →
      validateText cs = { isValid := true, error := none }) := by
  by_cases h1 : jsTrim cs = []
  · simp [validateText, h1]
  · have h1' : (jsTrim cs).isEmpty = false := by
      simpa [List.isEmpty_iff] using h1
    by_cases h2 : 10000 < cs.length
    · simp [validateText, h1', h1, h2, Nat.not_le_of_lt h2]
    · simp [validateText, h1', h1, h2, Nat.le_of_not_lt h2]

/-- C7 witness: a two-character text is neither empty nor over-long, so
validation succeeds with a null error. -/
theorem validateText_spec_witness :
    validateText "hi".data = { isValid := true, error := none } :=
  (validateText_spec "hi".data).2.2 (by decide) (by decide)

/-! ## Claim C2: boundary-driven highlight advance -/

/-- The boundary trace from any state: while all events are word events and
enough word tokens remain, the handler emits consecutive indices starting at
the current `boundaryWordIndex`. -/
theorem boundaryTrace_advances (words : List Token) (sentences : List Sentence) :
    ∀ (es : List String) (s : BoundaryState),
      (∀ e ∈ es, e = "word") →
      s.boundaryWordIndex + es.length ≤ words.length →
      boundaryTrace words sentences s es =
        (List.range' s.boundaryWordIndex es.length).map (fun i => (i : Int)) := by
  intro es
  induction es with
  | nil => intro s _ _; rfl
  | cons e es ih =>
      intro s hall hlen
      have he : e = "word" := hall e (by simp)
      have hlt : s.boundaryWordIndex < words.length := by
        simp only [List.length_cons] at hlen
        omega
      have hcond : (e = "word" ∧ s.boundaryWordIndex < words.length) := ⟨he, hlt⟩
      have hcwi : (onboundary words sentences s e).currentWordIndex =
          (s.boundaryWordIndex : Int) := by
        unfold onboundary
        rw [if_pos hcond]
      have hbwi : (onboundary words sentences s e).boundaryWordIndex =
          s.boundaryWordIndex + 1 := by
        unfold onboundary
        rw [if_pos hcond]
      have htail := ih (onboundary words sentences s e)
        (fun e' he' => hall e' (by simp [he']))
        (by rw [hbwi]; simp only [List.length_cons] at hlen; omega)
      show (onboundary words sentences s e).currentWordIndex ::
         boundaryTrace words sentences (onboundary words sentences s e) es = _
      rw [hcwi, htail, hbwi]
      simp [List.range']
  
/-- C2: in boundary-driven mode, starting from the session-start state, a
sequence of N word-boundary events (N at most the number of word tokens of the
text) makes `currentWordIndex` take exactly the values 0, 1, ..., N-1 in
arrival order — no repeats, no decreases, one word per event. -/
theorem boundary_monotonic_advance (cs : List Char) (sentences : List Sentence)
    (es : List String) (hword : ∀ e ∈ es, e = "word")
    (hlen : es.length ≤ (wordTokens cs).length) :
    boundaryTrace (wordTokens cs) sentences initialBoundaryState es =
      (List.range es.length).map (fun i => (i : Int)) := by
  have h := boundaryTrace_advances (wordTokens cs) sentences es initialBoundaryState hword
    (by simpa [initialBoundaryState] using hlen)
  rw [h]
  simp [initialBoundaryState, List.range_eq_range']

/-- C2 witness: two word-boundary events on "hello world" highlight words
0 then 1. -/
theorem boundary_monotonic_advance_witness :
    boundaryTrace (wordTokens "hello world".data)
        (tokenizeSentences "hello world".data) initialBoundaryState
        ["word", "word"] = [(0 : Int), 1] :=
  boundary_monotonic_advance "hello world".data
    (tokenizeSentences "hello world".data) ["word", "word"]
    (by decide) (by decide)

/-! ## Claim C8: stop resets the highlight and renders timers inert -/

/-- A session the stop request has acted on: the utterance is cancelled and
the audio element is paused/detached. -/
def sessionStopped (s : PlaybackState) : Prop :=
  s.isSpeaking = false ∧ s.audioActive = false

/-- No timer callback restarts a stopped session, and in a stopped session no
timer callback other than the delayed reset changes the highlight indices. -/
theorem fireTimer_stopped (words : List Token) (sentences : List Sentence)
    (s : PlaybackState) (k : TimerKind) (h : sessionStopped s) :
    sessionStopped (fireTimer words sentences s k) ∧
    (k ≠ TimerKind.resetDelay →
      (fireTimer words sentences s k).currentWordIndex = s.currentWordIndex ∧
      (fireTimer words sentences s k).currentSentenceIndex = s.currentSentenceIndex) := by
  obtain ⟨h1, h2⟩ := h
  cases k with
  | fallbackTick expected =>
      constructor
      · by_cases hstart : (!s.hasStartedFallback && decide (s.boundaryWordIndex = 0)) = true <;>
          simp [fireTimer, hstart, sessionStopped, h1, h2]
      · intro _
        by_cases hstart : (!s.hasStartedFallback && decide (s.boundaryWordIndex = 0)) = true <;>
          simp [fireTimer, hstart, h1]
  | backendTick expected =>
      constructor
      · simp [fireTimer, h2, sessionStopped, h1]
      · intro _
        simp [fireTimer, h2]
  | resumeTick =>
      exact ⟨⟨h1, h2⟩, fun _ => ⟨rfl, rfl⟩⟩
  | resetDelay =>
      exact ⟨⟨h1, h2⟩, fun hk => absurd rfl hk⟩

/-- After the delayed reset has run in a stopped session, any further timer
firings leave the highlight at (-1, -1). -/
theorem foldl_ticks_keep_reset (words : List Token) (sentences : List Sentence) :
    ∀ (l : List TimerKind) (s : PlaybackState), sessionStopped s →
      s.currentWordIndex = -1 → s.currentSentenceIndex = -1 →
      (l.foldl (fireTimer words sentences) s).currentWordIndex = -1 ∧
      (l.foldl (fireTimer words sentences) s).currentSentenceIndex = -1 := by
  intro l
  induction l with
  | nil => intro s _ hw hs; exact ⟨hw, hs⟩
  | cons k ks ih =>
      intro s hstop hw hs
      have h := fireTimer_stopped words sentences s k hstop
      by_cases hk : k = TimerKind.resetDelay
      · subst hk
        exact ih _ h.1 (by simp [fireTimer]) (by simp [fireTimer])
      · obtain ⟨hw', hs'⟩ := h.2 hk
        exact ih _ h.1 (hw' ▸ hw) (hs' ▸ hs)

/-- Stopping preserves stoppedness under any sequence of timer firings. -/
theorem foldl_ticks_stopped (words : List Token) (sentences : List Sentence) :
    ∀ (l : List TimerKind) (s : PlaybackState), sessionStopped s →
      sessionStopped (l.foldl (fireTimer words sentences) s) := by
  intro l
  induction l with
  | nil => intro s h; exact h
  | cons k ks ih =>
      intro s h
      exact ih _ (fireTimer_stopped words sentences s k h).1

/-- C8: after `handleStop`, once the 150 ms delayed reset scheduled by
`resetPlaybackState` fires, the highlight state is (-1, -1), and it stays
(-1, -1) no matter which pending timer callbacks fire before or after the
reset — every tick is rendered inert because the stop cancelled the utterance
and paused the audio element. -/
theorem stop_resets_highlight_permanently (words : List Token)
    (sentences : List Sentence) (s : PlaybackState)
    (before after : List TimerKind) :
    ((before ++ TimerKind.resetDelay :: after).foldl
        (fireTimer words sentences) (handleStop s)).currentWordIndex = -1 ∧
    ((before ++ TimerKind.resetDelay :: after).foldl
        (fireTimer words sentences) (handleStop s)).currentSentenceIndex = -1 := by
  rw [List.foldl_append]
  have hstop0 : sessionStopped (handleStop s) := ⟨rfl, rfl⟩
  have hstop1 := foldl_ticks_stopped words sentences before (handleStop s) hstop0
  show ((TimerKind.resetDelay :: after).foldl (fireTimer words sentences) _).currentWordIndex = -1 ∧ _
  simp only [List.foldl_cons]
  exact foldl_ticks_keep_reset words sentences after _
    (fireTimer_stopped words sentences _ TimerKind.resetDelay hstop1).1
    (by simp [fireTimer]) (by simp [fireTimer])

/-! ## Claim C4: the readability formula -/

/-- Division with a non-zero denominator is finite. -/
theorem jsDivNat_of_ne_zero (a : Nat) {b : Nat} (hb : b ≠ 0) :
    jsDivNat a b = JsNum.fin ((a : Rat) / (b : Rat)) := by
  simp [jsDivNat, hb]

/-- C4 amended: for a text with at least one sentence and at least one word,
the unrounded score is `avgSentenceLength * 0.39 + complexWordRatio * 100` and
the level thresholds (<30 Easy, <50 Medium, <70 Hard, else "Very Hard") are
applied to it; but the returned `score` field is that value rounded to one
decimal (`Math.round(score * 10) / 10`), and the returned `complexWordRatio`
field is the ratio as a percentage rounded to one decimal
(`Math.round(ratio * 1000) / 10`), not the raw ratio. -/
theorem calculateReadabilityScore_formula (cs : List Char)
    (hS : (scoreSentences cs).length ≠ 0) (hW : (scoreWords cs).length ≠ 0) :
    let W : Rat := (scoreWords cs).length
    let S : Rat := (scoreSentences cs).length
    let C : Rat := ((scoreWords cs).filter isComplexWord).length
    let raw : Rat := W / S * (39 / 100) + C / W * 100
    (calculateReadabilityScore cs).score = JsNum.fin ((jsRound (raw * 10) : Rat) / 10) ∧
    (calculateReadabilityScore cs).complexWordRatio =
      JsNum.fin ((jsRound (C / W * 1000) : Rat) / 10) ∧
    (calculateReadabilityScore cs).level =
      (if raw < 30 then "Easy" else if raw < 50 then "Medium"
       else if raw < 70 then "Hard" else "Very Hard") ∧
    (calculateReadabilityScore cs).totalWords = (scoreWords cs).length ∧
    (calculateReadabilityScore cs).totalSentences = (scoreSentences cs).length := by
  intro W S C raw
  unfold calculateReadabilityScore
  dsimp only
  rw [jsDivNat_of_ne_zero _ hS, jsDivNat_of_ne_zero _ hW]
  simp only [jsMulConst, jsAdd, jsRound10, jsRoundPct, jsLtConst]
  refine ⟨by trivial, by trivial, ?_, by trivial, by trivial⟩
  by_cases h30 : raw < 30 <;> by_cases h50 : raw < 50 <;> by_cases h70 : raw < 70 <;>
    simp [W, S, C, raw, h30, h50, h70]

/-- C4 counterexample: on "amazing." (one sentence, one complex word) the
unrounded score is 100.39, but the returned `score` field is 100.4 and the
returned `complexWordRatio` field is 100 — the percentage — not the ratio 1. -/
theorem calculateReadabilityScore_returns_rounded_percentage :
    (calculateReadabilityScore "amazing.".data).score = JsNum.fin (502 / 5) ∧
    (calculateReadabilityScore "amazing.".data).complexWordRatio = JsNum.fin 100 ∧
    (scoreWords "amazing.".data).length = 1 ∧
    ((scoreWords "amazing.".data).filter isComplexWord).length = 1 ∧
    (scoreSentences "amazing.".data).length = 1 ∧
    JsNum.fin ((502 : Rat) / 5) ≠
      JsNum.fin (((1 : Rat) / 1) * (39 / 100) + ((1 : Rat) / 1) * 100) ∧
    JsNum.fin ((100 : Rat)) ≠ JsNum.fin ((1 : Rat) / 1) := by
  have hw : scoreWords "amazing.".data = ["amazing.".data] := by decide
  have hs : scoreSentences "amazing.".data = ["amazing".data] := by decide
  have hfw : List.filter isComplexWord ["amazing.".data] = ["amazing.".data] := by decide
  refine ⟨?_, ?_, by rw [hw]; rfl, by rw [hw, hfw]; rfl, by rw [hs]; rfl, ?_, ?_⟩
  · unfold calculateReadabilityScore
    dsimp only
    rw [hw, hs, hfw]
    simp only [List.length_cons, List.length_nil, jsDivNat, jsMulConst, jsAdd,
      jsRound10, jsRound]
    norm_num
  · unfold calculateReadabilityScore
    dsimp only
    rw [hw, hfw]
    simp only [List.length_cons, List.length_nil, jsDivNat, jsRoundPct, jsRound]
    norm_num
  · simp only [ne_eq, JsNum.fin.injEq]
    norm_num
  · simp only [ne_eq, JsNum.fin.injEq]
    norm_num

/-- C4 witness: the formula theorem applied to "hello there." (one sentence,
two words, no complex word). -/
theorem calculateReadabilityScore_formula_witness :
    (scoreSentences "hello there.".data).length ≠ 0 ∧
    (scoreWords "hello there.".data).length ≠ 0 ∧
    (let W : Rat := (scoreWords "hello there.".data).length
     let S : Rat := (scoreSentences "hello there.".data).length
     let C : Rat := ((scoreWords "hello there.".data).filter isComplexWord).length
     let raw : Rat := W / S * (39 / 100) + C / W * 100
     (calculateReadabilityScore "hello there.".data).score =
       JsNum.fin ((jsRound (raw * 10) : Rat) / 10) ∧
     (calculateReadabilityScore "hello there.".data).complexWordRatio =
       JsNum.fin ((jsRound (C / W * 1000) : Rat) / 10) ∧
     (calculateReadabilityScore "hello there.".data).level =
       (if raw < 30 then "Easy" else if raw < 50 then "Medium"
        else if raw < 70 then "Hard" else "Very Hard") ∧
     (calculateReadabilityScore "hello there.".data).totalWords =
       (scoreWords "hello there.".data).length ∧
     (calculateReadabilityScore "hello there.".data).totalSentences =
       (scoreSentences "hello there.".data).length) :=
  ⟨by decide, by decide,
   calculateReadabilityScore_formula "hello there.".data (by decide) (by decide)⟩

/-! ## Claim C1: tokenizer round-trip and contiguity -/

/-- The maximal-run decomposition concatenates back to the input. -/
theorem chunkBy_flatten (cls : Char → Nat) : ∀ cs, (chunkBy cls cs).flatten = cs := by
  intro cs
  induction cs with
  | nil => rfl
  | cons c cs ih =>
      show (match chunkBy cls cs with
            | [] => [[c]]
            | [] :: rest => [c] :: rest
            | (d :: ds) :: rest =>
              if cls c = cls d then (c :: d :: ds) :: rest
              else [c] :: (d :: ds) :: rest).flatten = c :: cs
      cases h : chunkBy cls cs with
      | nil =>
          rw [h] at ih
          simp at ih
          simp [← ih]
      | cons first rest =>
          cases first with
          | nil =>
              rw [h] at ih
              simp at ih ⊢
              simpa using ih
          | cons d ds =>
              rw [h] at ih
              by_cases hc : cls c = cls d <;> simp [hc] at ih ⊢ <;> simpa using ih

/-- Every chunk of the maximal-run decomposition is a non-empty run of
same-class characters. -/
theorem chunkBy_uniform (cls : Char → Nat) :
    ∀ cs, ∀ ch ∈ chunkBy cls cs, ch ≠ [] ∧ ∃ k, ∀ a ∈ ch, cls a = k := by
  intro cs
  induction cs with
  | nil => intro ch hch; simp [chunkBy] at hch
  | cons c cs ih =>
      intro ch hch
      rw [show chunkBy cls (c :: cs) =
            (match chunkBy cls cs with
             | [] => [[c]]
             | [] :: rest => [c] :: rest
             | (d :: ds) :: rest =>
               if cls c = cls d then (c :: d :: ds) :: rest
               else [c] :: (d :: ds) :: rest) from rfl] at hch
      cases h : chunkBy cls cs with
      | nil =>
          rw [h] at hch
          simp at hch
          subst hch
          exact ⟨by simp, cls c, by simp⟩
      | cons first rest =>
          rw [h] at hch
          cases first with
          | nil =>
              simp at hch
              rcases hch with hch | hch
              · subst hch
                exact ⟨by simp, cls c, by simp⟩
              · exact ih ch (by simp [h, hch])
          | cons d ds =>
              by_cases hc : cls c = cls d <;> simp [hc] at hch
              · rcases hch with hch | hch
                · subst hch
                  obtain ⟨_, k, hk⟩ := ih (d :: ds) (by simp [h])
                  refine ⟨by simp, k, ?_⟩
                  intro a ha
                  simp only [List.mem_cons] at ha
                  rcases ha with rfl | ha
                  · rw [hc]
                    exact hk d (by simp)
                  · exact hk a (by simp [List.mem_cons, ha])
                · exact ih ch (by simp [h, hch])
              · rcases hch with hch | hch | hch
                · subst hch
                  exact ⟨by simp, cls c, by simp⟩
                · subst hch
                  exact ih (d :: ds) (by simp [h])
                · exact ih ch (by simp [h, hch])

/-- Contiguity check for a token list: each token starts where told, its end
offset is start plus its text length, and the next token starts at its end. -/
def chainedFrom : Nat → List Token → Bool
  | _, [] => true
  | pos, t :: ts =>
    (decide (t.start = pos) && decide (t.stop = t.start + t.text.length)) &&
      chainedFrom t.stop ts

/-- A character the tokenizer's regex can match, or whitespace: on texts made
only of such characters every inter-match gap is pure whitespace. -/
def goodTokChar (c : Char) : Bool :=
  isTokMatchChar c || isJsWS c

/-- Over chunks that are non-empty and either all-match or all-whitespace, the
token emission loop reproduces the chunk concatenation and yields a contiguous
token list. -/
theorem tokensOfChunks_cons_match (c : Char) (cds : List Char)
    (rest : List (List Char)) (pos : Nat) (hm : isTokMatchChar c = true) :
    tokensOfChunks ((c :: cds) :: rest) pos =
      { text := c :: cds,
        type := if isTokWordChar c then TokenType.word else TokenType.punctuation,
        start := pos, stop := pos + (c :: cds).length }
        :: tokensOfChunks rest (pos + (c :: cds).length) := by
  simp [tokensOfChunks, hm]

/-- Unfolding of the emission loop at a trailing non-match chunk. -/
theorem tokensOfChunks_ws_last (c : Char) (cds : List Char) (pos : Nat)
    (hm : isTokMatchChar c = false) :
    tokensOfChunks [c :: cds] pos =
      [{ text := c :: cds, type := TokenType.whitespace,
         start := pos, stop := pos + (c :: cds).length }] := by
  simp [tokensOfChunks, hm]

/-- Unfolding of the emission loop at a non-match chunk followed by more
chunks. -/
theorem tokensOfChunks_ws_mid (c : Char) (cds : List Char) (r : List Char)
    (rs : List (List Char)) (pos : Nat) (hm : isTokMatchChar c = false) :
    tokensOfChunks ((c :: cds) :: r :: rs) pos =
      (if (c :: cds).all isJsWS then
        [{ text := c :: cds, type := TokenType.whitespace,
           start := pos, stop := pos + (c :: cds).length }]
       else []) ++ tokensOfChunks (r :: rs) (pos + (c :: cds).length) := by
  simp [tokensOfChunks, hm]

/-- Over chunks that are non-empty and each either all-match or
all-whitespace, the token emission loop reproduces the chunk concatenation
and yields a contiguous token list. -/
theorem tokensOfChunks_flatten_chained :
    ∀ (chs : List (List Char)) (pos : Nat),
      (∀ ch ∈ chs, ch ≠ [] ∧
        ((∀ a ∈ ch, isTokMatchChar a = true) ∨ (∀ a ∈ ch, isJsWS a = true))) →
      ((tokensOfChunks chs pos).map Token.text).flatten = chs.flatten ∧
      chainedFrom pos (tokensOfChunks chs pos) = true := by
  intro chs
  induction chs with
  | nil => intro pos _; exact ⟨rfl, rfl⟩
  | cons chunk rest ih =>
      intro pos hgood
      obtain ⟨hne, hclass⟩ := hgood chunk (by simp)
      obtain ⟨c, cds, rfl⟩ := List.exists_cons_of_ne_nil hne
      have hrest : ∀ ch ∈ rest, ch ≠ [] ∧
          ((∀ a ∈ ch, isTokMatchChar a = true) ∨ (∀ a ∈ ch, isJsWS a = true)) :=
        fun ch hch => hgood ch (by simp [hch])
      by_cases hm : isTokMatchChar c = true
      · have hih := ih (pos + (c :: cds).length) hrest
        simp only [List.length_cons] at hih
        rw [tokensOfChunks_cons_match c cds rest pos hm]
        constructor
        · simp [hih.1]
        · simp only [chainedFrom]
          simp only [List.length_cons]
          refine (by simp : (chainedFrom (pos + (cds.length + 1)) (tokensOfChunks rest (pos + (cds.length + 1))) = true) → _) hih.2
      · have hm' : isTokMatchChar c = false := by simpa using hm
        have hws : ∀ a ∈ c :: cds, isJsWS a = true := by
          rcases hclass with hmatch | hws
          · exact absurd (hmatch c (by simp)) (by simpa using hm)
          · exact hws
        have hall : (c :: cds).all isJsWS = true := List.all_eq_true.mpr hws
        cases rest with
        | nil =>
            rw [tokensOfChunks_ws_last c cds pos hm']
            constructor
            · simp
            · simp [chainedFrom]
        | cons r rs =>
            have hih := ih (pos + (c :: cds).length) hrest
            simp only [List.length_cons] at hih
            rw [tokensOfChunks_ws_mid c cds r rs pos hm', if_pos hall]
            constructor
            · simp [hih.1]
            · simp only [List.cons_append, List.nil_append, chainedFrom]
              simp only [List.length_cons]
              refine (by simp : (chainedFrom (pos + (cds.length + 1)) (tokensOfChunks (r :: rs) (pos + (cds.length + 1))) = true) → _) hih.2

/-- C1 amended: for texts made only of characters the tokenizer's pattern can
match (word characters, apostrophes, the punctuation set) and whitespace,
concatenating `token.text` over `tokenizeText(text)` in order reproduces the
input exactly and the tokens are contiguous from offset 0
(`token[i].end == token[i+1].start`, `end = start + text.length`).  On other
characters the round-trip fails (see the counterexample): a gap that does not
trim to whitespace is silently dropped. -/
theorem tokenizeText_roundtrip (cs : List Char)
    (h : ∀ c ∈ cs, goodTokChar c = true) :
    ((tokenizeText cs).map Token.text).flatten = cs ∧
    chainedFrom 0 (tokenizeText cs) = true := by
  unfold tokenizeText
  have hfl := chunkBy_flatten tokCharClass cs
  have hgood : ∀ ch ∈ chunkBy tokCharClass cs, ch ≠ [] ∧
      ((∀ a ∈ ch, isTokMatchChar a = true) ∨ (∀ a ∈ ch, isJsWS a = true)) := by
    intro ch hmem
    obtain ⟨hne, k, hk⟩ := chunkBy_uniform tokCharClass cs ch hmem
    refine ⟨hne, ?_⟩
    have hmemcs : ∀ a ∈ ch, a ∈ cs := by
      intro a ha
      rw [← hfl]
      exact List.mem_flatten.mpr ⟨ch, hmem, ha⟩
    by_cases hk2 : k = 2
    · right
      intro a ha
      have hcls := hk a ha
      have hg := h a (hmemcs a ha)
      subst hk2
      unfold tokCharClass at hcls
      by_cases hw : isTokWordChar a = true
      · simp [hw] at hcls
      · by_cases hp : isTokPunctChar a = true
        · simp [hw, hp] at hcls
        · have hnm : isTokMatchChar a = false := by
            simp [isTokMatchChar, Bool.or_eq_true] at hw hp ⊢
            exact ⟨hw, hp⟩
          unfold goodTokChar at hg
          rw [hnm] at hg
          simpa using hg
    · left
      intro a ha
      have hcls := hk a ha
      unfold tokCharClass at hcls
      by_cases hw : isTokWordChar a = true
      · simp [isTokMatchChar, hw]
      · by_cases hp : isTokPunctChar a = true
        · simp [isTokMatchChar, hw, hp]
        · rw [if_neg (by simp [hw]), if_neg (by simp [hp])] at hcls
          exact absurd hcls.symm hk2
  have hmain := tokensOfChunks_flatten_chained (chunkBy tokCharClass cs) 0 hgood
  rw [hfl] at hmain
  exact hmain

/-- C1 counterexample: on "a@b" the "@" gap does not trim to empty, so no
whitespace token is emitted for it — the concatenated token texts give "ab",
not "a@b", and the two word tokens are not contiguous (the first ends at
offset 1, the second starts at offset 2). -/
theorem tokenizeText_roundtrip_counterexample :
    ((tokenizeText "a@b".data).map Token.text).flatten = "ab".data ∧
    "ab".data ≠ "a@b".data ∧
    chainedFrom 0 (tokenizeText "a@b".data) = false ∧
    (tokenizeText "a@b".data).map Token.stop = [1, 3] ∧
    (tokenizeText "a@b".data).map Token.start = [0, 2] := by
  decide

/-- C1 witness: the round-trip theorem on "Hello, world!" (letters,
punctuation and spaces only). -/
theorem tokenizeText_roundtrip_witness :
    (∀ c ∈ "Hello, world!".data, goodTokChar c = true) ∧
    (((tokenizeText "Hello, world!".data).map Token.text).flatten =
        "Hello, world!".data ∧
      chainedFrom 0 (tokenizeText "Hello, world!".data) = true) :=
  ⟨by decide, tokenizeText_roundtrip "Hello, world!".data (by decide)⟩

/-! ## Claim C5: sentence splitting segment lengths -/

/-- A last element is a member. -/
theorem mem_of_getLast?_eq (l : List Char) (a : Char) (h : l.getLast? = some a) :
    a ∈ l := by
  induction l with
  | nil => simp at h
  | cons x xs ih =>
      cases xs with
      | nil =>
          simp [List.getLast?] at h
          simp [h]
      | cons y ys =>
          rw [List.getLast?_cons_cons] at h
          exact List.mem_cons_of_mem _ (ih h)

/-- Unfolding of `splitRuns` at a non-separator head character. -/
theorem splitRuns_cons_not (p : Char → Bool) (a : Char) (t : List Char)
    (ha : p a = false) :
    splitRuns p (a :: t) =
      (match splitRuns p t with
       | [] => [[a]]
       | piece :: rest => (a :: piece) :: rest) := by
  rw [splitRuns.eq_def]
  simp [ha]

/-- Splitting a separator-free string gives the string back as one piece. -/
theorem splitRuns_all_not (p : Char → Bool) :
    ∀ w : List Char, (∀ c ∈ w, p c = false) → splitRuns p w = [w] := by
  intro w
  induction w with
  | nil => intro _; rfl
  | cons c t ih =>
      intro hw
      have hc : p c = false := hw c (by simp)
      have ih' := ih (fun x hx => hw x (by simp [hx]))
      rw [splitRuns_cons_not p c t hc, ih']

/-- Splitting a space followed by a non-space-headed remainder. -/
theorem splitRuns_space_cons (d : Char) (t : List Char) (hd : isJsWS d = false) :
    splitRuns isJsWS (' ' :: d :: t) = [] :: splitRuns isJsWS (d :: t) := by
  simp only [splitRuns, show isJsWS ' ' = true from rfl, hd]
  simp

/-- Splitting a separator-free word, a space, and a non-space-headed
remainder peels off the word as one piece. -/
theorem splitRuns_word_space (d : Char) (t : List Char) (hd : isJsWS d = false) :
    ∀ w : List Char, w ≠ [] → (∀ c ∈ w, isJsWS c = false) →
      splitRuns isJsWS (w ++ ' ' :: d :: t) = w :: splitRuns isJsWS (d :: t) := by
  intro w
  induction w with
  | nil => intro h _; exact absurd rfl h
  | cons a u ih =>
      intro _ hwf
      have ha : isJsWS a = false := hwf a (by simp)
      cases u with
      | nil =>
          show splitRuns isJsWS (a :: ' ' :: d :: t) = [a] :: splitRuns isJsWS (d :: t)
          rw [splitRuns_cons_not isJsWS a (' ' :: d :: t) ha,
            splitRuns_space_cons d t hd]
      | cons b v =>
          have ih' := ih (by simp) (fun x hx => hwf x (by simp [hx]))
          show splitRuns isJsWS (a :: (b :: v ++ ' ' :: d :: t)) =
            (a :: b :: v) :: splitRuns isJsWS (d :: t)
          rw [splitRuns_cons_not isJsWS a (b :: v ++ ' ' :: d :: t) ha]
          simp only [List.cons_append] at ih' ⊢
          rw [ih']

/-- Round trip: splitting the space-join of non-empty whitespace-free words
returns exactly those words. -/
theorem splitRuns_joinSpace :
    ∀ ws : List (List Char), ws ≠ [] →
      (∀ w ∈ ws, w ≠ [] ∧ ∀ c ∈ w, isJsWS c = false) →
      splitRuns isJsWS (joinSpace ws) = ws := by
  intro ws
  induction ws with
  | nil => intro h _; exact absurd rfl h
  | cons w ws ih =>
      intro _ hprops
      obtain ⟨hwne, hwf⟩ := hprops w (by simp)
      cases ws with
      | nil => exact splitRuns_all_not isJsWS w hwf
      | cons w2 ws2 =>
          obtain ⟨hw2ne, hw2f⟩ := hprops w2 (by simp)
          obtain ⟨d, u, rfl⟩ := List.exists_cons_of_ne_nil hw2ne
          have hd : isJsWS d = false := hw2f d (by simp)
          have hjoin : joinSpace (w :: (d :: u) :: ws2) =
              w ++ ' ' :: joinSpace ((d :: u) :: ws2) := rfl
          have hshape : ∃ t, joinSpace ((d :: u) :: ws2) = d :: t := by
            cases ws2 with
            | nil => exact ⟨u, rfl⟩
            | cons w3 ws3 => exact ⟨u ++ ' ' :: joinSpace (w3 :: ws3), rfl⟩
          obtain ⟨t, ht⟩ := hshape
          rw [hjoin, ht, splitRuns_word_space d t hd w hwne hwf, ← ht,
            ih (by simp) (fun x hx => hprops x (by simp [hx]))]

/-- Trimming is the identity on a string with non-whitespace first and last
characters. -/
theorem jsTrim_id (x : List Char) (hne : x ≠ [])
    (hh : ∀ c, x.head? = some c → isJsWS c = false)
    (hl : ∀ c, x.getLast? = some c → isJsWS c = false) :
    jsTrim x = x := by
  obtain ⟨c, t, rfl⟩ := List.exists_cons_of_ne_nil hne
  have hc : isJsWS c = false := hh c rfl
  unfold jsTrim
  have h1 : List.dropWhile isJsWS (c :: t) = c :: t := by
    simp [List.dropWhile_cons, hc]
  rw [h1]
  obtain ⟨e, r, hrev⟩ : ∃ e r, (c :: t).reverse = e :: r :=
    List.exists_cons_of_ne_nil (by simp)
  have he : (c :: t).getLast? = some e := by
    rw [← List.head?_reverse, hrev]
    rfl
  have hews : isJsWS e = false := hl e he
  have h2 : List.dropWhile isJsWS (e :: r) = e :: r := by
    simp [List.dropWhile_cons, hews]
  rw [hrev, h2, ← hrev, List.reverse_reverse]

/-- The head of a space-join of words whose first word starts with `a`. -/
theorem joinSpace_cons_head (a : Char) (u : List Char) (ws : List (List Char)) :
    ∃ t, joinSpace ((a :: u) :: ws) = a :: t := by
  cases ws with
  | nil => exact ⟨u, rfl⟩
  | cons w2 ws2 => exact ⟨u ++ ' ' :: joinSpace (w2 :: ws2), rfl⟩

/-- The last character of a space-join of non-empty whitespace-free words is
not whitespace. -/
theorem joinSpace_getLast_not_ws :
    ∀ ws : List (List Char),
      (∀ w ∈ ws, w ≠ [] ∧ ∀ c ∈ w, isJsWS c = false) →
      ∀ c, (joinSpace ws).getLast? = some c → isJsWS c = false := by
  intro ws
  induction ws with
  | nil => intro _ c hc; simp [joinSpace] at hc
  | cons w ws ih =>
      intro hprops c hc
      cases ws with
      | nil =>
          exact (hprops w (by simp)).2 c (mem_of_getLast?_eq w c hc)
      | cons w2 ws2 =>
          rw [show joinSpace (w :: w2 :: ws2) = w ++ ' ' :: joinSpace (w2 :: ws2)
              from rfl, List.getLast?_append] at hc
          obtain ⟨hw2ne, _⟩ := hprops w2 (by simp)
          obtain ⟨d, u, rfl⟩ := List.exists_cons_of_ne_nil hw2ne
          obtain ⟨t, ht⟩ := joinSpace_cons_head d u ws2
          rw [ht] at hc
          have : (' ' :: d :: t).getLast? = (d :: t).getLast? :=
            List.getLast?_cons_cons
          rw [this] at hc
          obtain ⟨l, hlast⟩ : ∃ l, (d :: t).getLast? = some l :=
            ⟨(d :: t).getLast (by simp), List.getLast?_eq_getLast _ _⟩
          rw [hlast] at hc
          simp only [Option.or_some] at hc
          have hlc : l = c := by injection hc
          subst hlc
          apply ih (fun x hx => hprops x (by simp [hx])) l
          rw [ht, hlast]

/-- Append a suffix to the last word of a word list. -/
def appendToLast (s : List Char) : List (List Char) → List (List Char)
  | [] => []
  | [w] => [w ++ s]
  | w :: ws => w :: appendToLast s ws

/-- Joining after appending to the last word appends to the join. -/
theorem joinSpace_appendToLast (s : List Char) :
    ∀ ws : List (List Char), ws ≠ [] →
      joinSpace (appendToLast s ws) = joinSpace ws ++ s := by
  intro ws
  induction ws with
  | nil => intro h; exact absurd rfl h
  | cons w ws ih =>
      intro _
      cases ws with
      | nil => rfl
      | cons w2 ws2 =>
          have ih' := ih (by simp)
          show joinSpace (w :: appendToLast s (w2 :: ws2)) = (w ++ ' ' :: joinSpace (w2 :: ws2)) ++ s
          obtain ⟨v, vs, hv⟩ : ∃ v vs, appendToLast s (w2 :: ws2) = v :: vs := by
            cases ws2 with
            | nil => exact ⟨w2 ++ s, [], rfl⟩
            | cons w3 ws3 => exact ⟨w2, appendToLast s (w3 :: ws3), rfl⟩
          rw [hv, show joinSpace (w :: v :: vs) = w ++ ' ' :: joinSpace (v :: vs) from rfl,
            ← hv, ih']
          simp

/-- `appendToLast` preserves length. -/
theorem appendToLast_length (s : List Char) :
    ∀ ws : List (List Char), (appendToLast s ws).length = ws.length := by
  intro ws
  induction ws with
  | nil => rfl
  | cons w ws ih =>
      cases ws with
      | nil => rfl
      | cons w2 ws2 => simpa [appendToLast] using ih

/-- `appendToLast` preserves non-emptiness and whitespace-freeness when the
suffix is whitespace-free. -/
theorem appendToLast_props (s : List Char) (hs : ∀ c ∈ s, isJsWS c = false) :
    ∀ ws : List (List Char),
      (∀ w ∈ ws, w ≠ [] ∧ ∀ c ∈ w, isJsWS c = false) →
      ∀ w' ∈ appendToLast s ws, w' ≠ [] ∧ ∀ c ∈ w', isJsWS c = false := by
  intro ws
  induction ws with
  | nil => intro _ w' hw'; simp [appendToLast] at hw'
  | cons w ws ih =>
      intro hprops w' hw'
      cases ws with
      | nil =>
          simp [appendToLast] at hw'
          subst hw'
          obtain ⟨hne, hwf⟩ := hprops w (by simp)
          refine ⟨by simp [hne], ?_⟩
          intro c hc
          rcases List.mem_append.mp hc with hc | hc
          · exact hwf c hc
          · exact hs c hc
      | cons w2 ws2 =>
          simp only [appendToLast, List.mem_cons] at hw'
          rcases hw' with rfl | hw'
          · exact hprops w' (by simp)
          · exact ih (fun x hx => hprops x (by simp [hx])) w' hw'

/-- Word count of a trimmed space-join with a whitespace-free suffix attached:
exactly the number of joined words. -/
theorem scoreWords_trim_join (ws : List (List Char)) (suffix : List Char)
    (hne : ws ≠ []) (hw : ∀ w ∈ ws, w ≠ [] ∧ ∀ c ∈ w, isJsWS c = false)
    (hsuf : ∀ c ∈ suffix, isJsWS c = false) :
    (scoreWords (jsTrim (joinSpace ws) ++ suffix)).length = ws.length := by
  obtain ⟨w, ws', rfl⟩ := List.exists_cons_of_ne_nil hne
  obtain ⟨hwne, hwf⟩ := hw w (by simp)
  obtain ⟨a, u, rfl⟩ := List.exists_cons_of_ne_nil hwne
  obtain ⟨t, ht⟩ := joinSpace_cons_head a u ws'
  have htrim : jsTrim (joinSpace ((a :: u) :: ws')) = joinSpace ((a :: u) :: ws') := by
    apply jsTrim_id
    · rw [ht]; simp
    · intro c hc
      rw [ht] at hc
      have hca : a = c := by injection hc
      subst hca
      exact hwf a (by simp)
    · exact joinSpace_getLast_not_ws ((a :: u) :: ws') hw
  rw [htrim, ← joinSpace_appendToLast suffix ((a :: u) :: ws') (by simp)]
  unfold scoreWords
  have happ := appendToLast_props suffix hsuf ((a :: u) :: ws') hw
  have hanil : appendToLast suffix ((a :: u) :: ws') ≠ [] := by
    cases ws' with
    | nil => simp [appendToLast]
    | cons w2 ws2 => simp [appendToLast]
  rw [splitRuns_joinSpace (appendToLast suffix ((a :: u) :: ws')) hanil happ]
  rw [List.filter_eq_self.mpr (fun x hx => by
    simp [List.isEmpty_eq_false.mpr (happ x hx).1])]
  exact appendToLast_length suffix ((a :: u) :: ws')

/-- Every split point is an index into the word list. -/
theorem splitPointsOf_le (words : List (List Char)) :
    ∀ sp ∈ splitPointsOf words, sp ≤ words.length := by
  intro sp hsp
  unfold splitPointsOf at hsp
  obtain ⟨pair, hpair, hfst⟩ := List.mem_map.mp hsp
  have hmem := (List.mem_filter.mp hpair).1
  have henum := List.mem_enum (show (pair.1, pair.2) ∈ words.enum by simpa using hmem)
  rw [← hfst]
  exact Nat.le_of_lt henum.1

/-- Invariant of the `splitPoints.forEach` fold: every segment pushed before a
split point contains more than 8 words. -/
theorem conjunctionParts_fold_inv (words : List (List Char))
    (hw : ∀ w ∈ words, w ≠ [] ∧ ∀ c ∈ w, isJsWS c = false) :
    ∀ (sps : List Nat), (∀ sp ∈ sps, sp ≤ words.length) →
    ∀ (acc : List (List Char) × Nat),
      (∀ seg ∈ acc.1, (scoreWords seg).length > 8) →
      ∀ seg ∈ (sps.foldl (conjunctionStep words) acc).1,
        (scoreWords seg).length > 8 := by
  intro sps
  induction sps with
  | nil => intro _ acc hacc seg hseg; exact hacc seg hseg
  | cons sp sps ih =>
      intro hbound acc hacc
      simp only [List.foldl_cons]
      apply ih (fun x hx => hbound x (by simp [hx]))
      intro seg hseg
      unfold conjunctionStep at hseg
      by_cases hgt : sp - acc.2 > 8
      · rw [if_pos hgt] at hseg
        dsimp only at hseg
        rcases List.mem_append.mp hseg with hseg | hseg
        · exact hacc seg hseg
        · have hsple : sp ≤ words.length := hbound sp (by simp)
          have hslen : (sliceList words acc.2 sp).length = sp - acc.2 := by
            unfold sliceList
            rw [List.length_take, List.length_drop]
            omega
          have hsne : sliceList words acc.2 sp ≠ [] := by
            intro h
            rw [h] at hslen
            simp at hslen
            omega
          have hsprops : ∀ w ∈ sliceList words acc.2 sp,
              w ≠ [] ∧ ∀ c ∈ w, isJsWS c = false := by
            intro w hwmem
            unfold sliceList at hwmem
            exact hw w (List.mem_of_mem_drop (List.mem_of_mem_take hwmem))
          have hcount := scoreWords_trim_join (sliceList words acc.2 sp) ['.']
            hsne hsprops (by intro c hc; simp at hc; subst hc; rfl)
          by_cases hpe : (jsTrim (joinSpace (sliceList words acc.2 sp))).isEmpty = true
          · rw [if_pos hpe] at hseg
            simp at hseg
          · rw [if_neg hpe] at hseg
            simp only [List.mem_singleton] at hseg
            subst hseg
            rw [hcount, hslen]
            exact hgt
      · rw [if_neg hgt] at hseg
        exact hacc seg hseg

/-- C5 amended: for a sentence word list of more than 25 non-empty,
whitespace-free words, every conjunction-split segment except the final
remaining one contains more than 8 words (the final remaining segment may be
arbitrarily short), and when no conjunction occurs after word-index 5 the
sentence is instead split at the midpoint by word count into two segments
whose word counts are `n / 2` and `n - n / 2` (differing by at most 1). -/
theorem longSentenceSegments_spec (words : List (List Char)) (punct : List Char)
    (hw : ∀ w ∈ words, w ≠ [] ∧ ∀ c ∈ w, isJsWS c = false)
    (hlen : words.length > 25)
    (hpunct : ∀ c ∈ punct, isJsWS c = false) :
    (∀ seg ∈ (conjunctionParts words).1, (scoreWords seg).length > 8) ∧
    ((splitPointsOf words).isEmpty = true →
      longSentenceSegments words punct =
        [jsTrim (joinSpace (words.take (words.length / 2))) ++ ['.'],
         jsTrim (joinSpace (words.drop (words.length / 2))) ++ punct] ∧
      (scoreWords (jsTrim (joinSpace (words.take (words.length / 2))) ++ ['.'])).length
        = words.length / 2 ∧
      (scoreWords (jsTrim (joinSpace (words.drop (words.length / 2))) ++ punct)).length
        = words.length - words.length / 2) := by
  constructor
  · unfold conjunctionParts
    exact conjunctionParts_fold_inv words hw (splitPointsOf words)
      (splitPointsOf_le words) ([], 0) (by simp)
  · intro hempty
    refine ⟨?_, ?_, ?_⟩
    · unfold longSentenceSegments
      rw [if_pos hempty]
    · have htk : (words.take (words.length / 2)).length = words.length / 2 := by
        rw [List.length_take]
        omega
      have htne : words.take (words.length / 2) ≠ [] := by
        intro h
        rw [h] at htk
        simp at htk
        omega
      have htprops : ∀ w ∈ words.take (words.length / 2),
          w ≠ [] ∧ ∀ c ∈ w, isJsWS c = false :=
        fun w hwm => hw w (List.mem_of_mem_take hwm)
      rw [scoreWords_trim_join _ ['.'] htne htprops
        (by intro c hc; simp at hc; subst hc; rfl)]
      exact htk
    · have hdk : (words.drop (words.length / 2)).length =
          words.length - words.length / 2 := List.length_drop _ _
      have hdne : words.drop (words.length / 2) ≠ [] := by
        intro h
        rw [h] at hdk
        simp at hdk
        omega
      have hdprops : ∀ w ∈ words.drop (words.length / 2),
          w ≠ [] ∧ ∀ c ∈ w, isJsWS c = false :=
        fun w hwm => hw w (List.mem_of_mem_drop hwm)
      rw [scoreWords_trim_join _ punct hdne hdprops hpunct]
      exact hdk

/-- C5 counterexample: a 27-word sentence whose only conjunction sits at
word-index 25 is split there, leaving a final remaining segment of just two
words ("and dog.") — fewer than the 8 words the claim requires of every
segment. -/
theorem simplifyStructure_short_final_segment :
    simplifyStructureSegments
        "cat cat cat cat cat cat cat cat cat cat cat cat cat cat cat cat cat cat cat cat cat cat cat cat cat and dog.".data =
      ["cat cat cat cat cat cat cat cat cat cat cat cat cat cat cat cat cat cat cat cat cat cat cat cat cat.".data,
       "and dog.".data] ∧
    (∃ seg ∈ simplifyStructureSegments
        "cat cat cat cat cat cat cat cat cat cat cat cat cat cat cat cat cat cat cat cat cat cat cat cat cat and dog.".data,
      (scoreWords seg).length < 8) ∧
    (scoreWords "and dog.".data).length = 2 := by
  decide

/-- C5 witness: the amended theorem on 27 copies of the word "w" (no
conjunctions, so the midpoint split applies, giving 13- and 14-word halves). -/
theorem longSentenceSegments_spec_witness :
    (∀ w ∈ List.replicate 27 "w".data, w ≠ [] ∧ ∀ c ∈ w, isJsWS c = false) ∧
    (List.replicate 27 "w".data).length > 25 ∧
    (∀ c ∈ ".".data, isJsWS c = false) ∧
    ((∀ seg ∈ (conjunctionParts (List.replicate 27 "w".data)).1,
        (scoreWords seg).length > 8) ∧
     ((splitPointsOf (List.replicate 27 "w".data)).isEmpty = true →
       longSentenceSegments (List.replicate 27 "w".data) ".".data =
         [jsTrim (joinSpace ((List.replicate 27 "w".data).take
             ((List.replicate 27 "w".data).length / 2))) ++ ['.'],
          jsTrim (joinSpace ((List.replicate 27 "w".data).drop
             ((List.replicate 27 "w".data).length / 2))) ++ ".".data] ∧
       (scoreWords (jsTrim (joinSpace ((List.replicate 27 "w".data).take
           ((List.replicate 27 "w".data).length / 2))) ++ ['.'])).length
         = (List.replicate 27 "w".data).length / 2 ∧
       (scoreWords (jsTrim (joinSpace ((List.replicate 27 "w".data).drop
           ((List.replicate 27 "w".data).length / 2))) ++ ".".data)).length
         = (List.replicate 27 "w".data).length -
             (List.replicate 27 "w".data).length / 2)) :=
  ⟨by decide, by decide, by decide,
   longSentenceSegments_spec (List.replicate 27 "w".data) ".".data
     (by decide) (by decide) (by decide)⟩
